import Mathlib

/-!
Verification of the timeline-tree rendering engine of jenkins-perf-visualizer
(`src/jenkins_perf_visualizer/visualize.js`).

The JavaScript source is shallowly embedded below: pure computations become
Lean functions, the DOM-writing render pass becomes a function producing a
layout description, and the fallible interval access becomes `Except`.
Times are integers (epoch milliseconds); real-valued tick counts and width
percentages are rationals.
-/

namespace JPV

/-- A color identifier carried by an interval: either an integer id from the
`colorToId` mapping, or the sentinel string id `"transparent"` used by the
synthetic leading interval (visualize.js line 148). -/
inductive ColorId where
  | cid (n : ℤ)
  | transparent
deriving DecidableEq, Repr

/-- An Interval record as consumed by `renderChart`: a single colored timing
segment of a node. -/
structure Interval where
  startTimeMs : ℤ
  endTimeMs : ℤ
  timeRangeRelativeToBuildStart : String
  mode : String
  colorId : ColorId
deriving DecidableEq, Repr

/-- The tick plan returned by `addCssGridMarks` (visualize.js line 60):
`return {numTicks, tickIntervalMs}`.  `numTicks` is real-valued in the
source (`taskTimeMs / tickIntervalMs`, not rounded), embedded as `ℚ`. -/
structure TickPlan where
  numTicks : ℚ
  tickIntervalMs : ℕ
deriving DecidableEq, Repr

/-- The while loop of `addCssGridMarks` (visualize.js lines 47-50):

    while (numTicks > 20) {
       tickIntervalMs += 60 * 1000;
       var numTicks = taskTimeMs / tickIntervalMs;
    }

(`var` is function-scoped in JavaScript, so the inner `var numTicks`
updates the single `numTicks` variable.)  The loop state is
`tickIntervalMs`; the condition re-reads `numTicks = taskTimeMs /
tickIntervalMs` each iteration. -/
def gridLoop (taskTimeMs : ℤ) (tickIntervalMs : ℕ) : ℕ :=
  if (taskTimeMs : ℚ) / (tickIntervalMs : ℚ) > 20 then
    gridLoop taskTimeMs (tickIntervalMs + 60000)
  else
    tickIntervalMs
termination_by (taskTimeMs - 20 * tickIntervalMs).toNat
decreasing_by
  rename_i h
  have ht : (tickIntervalMs : ℚ) ≠ 0 := by
    intro h0
    rw [h0, div_zero] at h
    exact absurd h (by norm_num)
  have htpos : 0 < (tickIntervalMs : ℚ) := by
    rcases Nat.eq_zero_or_pos tickIntervalMs with h0 | h0
    · exact absurd (by exact_mod_cast congrArg (Nat.cast (R := ℚ)) h0) ht
    · exact_mod_cast h0
  have h20 : (20 : ℚ) * (tickIntervalMs : ℚ) < (taskTimeMs : ℚ) :=
    (lt_div_iff₀ htpos).mp h
  have hz : (20 : ℤ) * (tickIntervalMs : ℤ) < taskTimeMs := by exact_mod_cast h20
  omega

/-- `addCssGridMarks` (visualize.js lines 43-61), restricted to its returned
value `{numTicks, tickIntervalMs}` (the two `insertRule` calls write CSS
only).  The candidate interval starts at `60 * 1000` ms. -/
def addCssGridMarks (taskTimeMs : ℤ) : TickPlan :=
  let tickIntervalMs := gridLoop taskTimeMs (60 * 1000)
  { numTicks := (taskTimeMs : ℚ) / (tickIntervalMs : ℚ), tickIntervalMs := tickIntervalMs }

/-- A Node tree of the input document: `name`, ordered `intervals`, ordered
`children` (visualize.js uses `node.name`, `node.intervals`,
`node.children`). -/
inductive NodeT where
  | mk (name : String) (intervals : List Interval) (children : List NodeT)

def NodeT.name : NodeT → String
  | .mk n _ _ => n

def NodeT.intervals : NodeT → List Interval
  | .mk _ i _ => i

def NodeT.children : NodeT → List NodeT
  | .mk _ _ c => c

/-- One entry of `data.builds`; `getNodeList` reads only `build.nodeRoot`
(visualize.js line 36). -/
structure Build where
  nodeRoot : NodeT

/-- The record `{...node, id: myID, parentIDs, hasChildren}` built by
`flattenNodes` (visualize.js line 31): the spread copies `name`,
`intervals` and `children`, and the three new fields are added. -/
structure FlatNode where
  name : String
  intervals : List Interval
  children : List NodeT
  id : ℕ
  parentIDs : List ℕ
  hasChildren : Bool

mutual
/-- `flattenNodes` (visualize.js lines 27-34).  The closure-mutated `nodes`
array becomes an accumulator: `myID = nodes.length` is taken before the
append, the flattened record is appended, and the children are visited with
`[...parentIDs, myID]`. -/
def flattenNodes (node : NodeT) (parentIDs : List ℕ) (nodes : List FlatNode) :
    List FlatNode :=
  match node with
  | .mk name intervals children =>
    flattenChildren children (parentIDs ++ [nodes.length])
      (nodes ++ [{ name := name, intervals := intervals, children := children,
                   id := nodes.length, parentIDs := parentIDs,
                   hasChildren := !children.isEmpty }])

/-- The `node.children.forEach(c => flattenNodes(c, [...parentIDs, myID]))`
loop of visualize.js line 33, as recursion over the children list. -/
def flattenChildren (cs : List NodeT) (parentIDs : List ℕ) (nodes : List FlatNode) :
    List FlatNode :=
  match cs with
  | [] => nodes
  | c :: rest => flattenChildren rest parentIDs (flattenNodes c parentIDs nodes)
end

/-- `getNodeList` (visualize.js lines 23-38): flatten every build's node
tree, in order, into one list. -/
def getNodeList (builds : List Build) : List FlatNode :=
  builds.foldl (fun nodes build => flattenNodes build.nodeRoot [] nodes) []

mutual
/-- Number of nodes in one tree. -/
def sizeNode : NodeT → ℕ
  | .mk _ _ cs => 1 + sizeChildren cs

/-- Number of nodes in a list of trees. -/
def sizeChildren : List NodeT → ℕ
  | [] => 0
  | c :: rest => sizeNode c + sizeChildren rest
end

/-- Replace every occurrence of the character `c` by `rep`: the effect of
one single-character global-regex `String.replace` of visualize.js
lines 3-5. -/
def replaceChar (c : Char) (rep : List Char) : List Char → List Char
  | [] => []
  | x :: xs => if x = c then rep ++ replaceChar c rep xs else x :: replaceChar c rep xs

/-- `safe` (visualize.js lines 2-6) on character lists: the five global
replacements applied in source order (`&` first, then `<`, `>`, `"`, `'`). -/
def safeList (l : List Char) : List Char :=
  replaceChar '\'' "&#039;".toList
    (replaceChar '"' "&quot;".toList
      (replaceChar '>' "&gt;".toList
        (replaceChar '<' "&lt;".toList
          (replaceChar '&' "&amp;".toList l))))

/-- `safe` (visualize.js lines 2-6). -/
def safe (s : String) : String :=
  String.mk (safeList s.toList)

/-- The per-character effect of `safe`: each of the five reserved
characters becomes its HTML entity, every other character is kept. -/
def escChar (c : Char) : List Char :=
  if c = '&' then "&amp;".toList
  else if c = '<' then "&lt;".toList
  else if c = '>' then "&gt;".toList
  else if c = '"' then "&quot;".toList
  else if c = '\'' then "&#039;".toList
  else [c]

/-- Whether a character list contains no unescaped occurrence of the five
reserved characters: `<`, `>`, `"`, `'` never occur at all, and every `&`
begins one of the five entities. -/
def escapedB : List Char → Bool
  | [] => true
  | c :: rest =>
    if c = '&' then
      if rest.take 4 = "amp;".toList then escapedB (rest.drop 4)
      else if rest.take 3 = "lt;".toList then escapedB (rest.drop 3)
      else if rest.take 3 = "gt;".toList then escapedB (rest.drop 3)
      else if rest.take 5 = "quot;".toList then escapedB (rest.drop 5)
      else if rest.take 5 = "#039;".toList then escapedB (rest.drop 5)
      else false
    else if c = '<' then false
    else if c = '>' then false
    else if c = '"' then false
    else if c = '\'' then false
    else escapedB rest
termination_by l => l.length
decreasing_by all_goals (simp [List.length_drop]; try omega)

/-- Decode the five entities back to their characters: the left inverse of
`safeList` on its image, witnessing that each reserved character was
replaced by its own entity and nothing was lost. -/
def unescape : List Char → List Char
  | [] => []
  | c :: rest =>
    if c = '&' then
      if rest.take 4 = "amp;".toList then '&' :: unescape (rest.drop 4)
      else if rest.take 3 = "lt;".toList then '<' :: unescape (rest.drop 3)
      else if rest.take 3 = "gt;".toList then '>' :: unescape (rest.drop 3)
      else if rest.take 5 = "quot;".toList then '"' :: unescape (rest.drop 5)
      else if rest.take 5 = "#039;".toList then '\'' :: unescape (rest.drop 5)
      else c :: unescape rest
    else c :: unescape rest
termination_by l => l.length
decreasing_by all_goals (simp [List.length_drop]; try omega)

/-- The single kind of render failure in the embedding: visualize.js line
145 evaluates `node.intervals[0].startTimeMs`, which throws on an empty
interval list. -/
inductive RenderError where
  | emptyIntervalList
deriving DecidableEq, Repr

/-- The synthetic `preBuildInterval` (visualize.js lines 143-149) and the
`[preBuildInterval, ...node.intervals]` list of line 150.  On an empty
interval list the access `node.intervals[0]` fails. -/
def normalizeIntervals (taskStartTimeMs : ℤ) (intervals : List Interval) :
    Except RenderError (List Interval) :=
  match intervals with
  | [] => .error .emptyIntervalList
  | first :: _ =>
    .ok ({ startTimeMs := taskStartTimeMs, endTimeMs := first.startTimeMs,
           timeRangeRelativeToBuildStart := "", mode := "[build not started]",
           colorId := .transparent } :: intervals)

/-- One emitted interval segment (visualize.js lines 151-159): the computed
`max-width` percentage, the color class, the escaped tooltip mode text and
the raw relative-time text. -/
structure IntervalBox where
  pct : ℚ
  colorId : ColorId
  modeHtml : String
  timeRange : String
deriving DecidableEq, Repr

/-- The `intervals.forEach` loop of visualize.js lines 151-159:
`pct = (endTimeMs - startTimeMs) * 100 / taskTimeMs`; every interval is
emitted, none is dropped, and no width is clamped. -/
def intervalBoxes (taskTimeMs : ℤ) (intervals : List Interval) : List IntervalBox :=
  intervals.map fun interval =>
    { pct := ((interval.endTimeMs - interval.startTimeMs : ℤ) : ℚ) * 100 / (taskTimeMs : ℚ),
      colorId := interval.colorId,
      modeHtml := safe interval.mode,
      timeRange := interval.timeRangeRelativeToBuildStart }

/-- One row of the chart (visualize.js lines 113-163): the escaped label
text, the collapse bookkeeping fields, and the interval segments in order. -/
structure Row where
  labelHtml : String
  id : ℕ
  parentIDs : List ℕ
  hasChildren : Bool
  intervals : List IntervalBox
deriving DecidableEq, Repr

/-- The per-node body of the `nodes.forEach` loop (visualize.js lines
113-163). -/
def renderNode (taskStartTimeMs taskTimeMs : ℤ) (node : FlatNode) :
    Except RenderError Row :=
  match normalizeIntervals taskStartTimeMs node.intervals with
  | .error e => .error e
  | .ok intervals =>
    .ok { labelHtml := safe node.name, id := node.id,
          parentIDs := node.parentIDs, hasChildren := node.hasChildren,
          intervals := intervalBoxes taskTimeMs intervals }

/-- The `nodes.forEach` loop of visualize.js line 113: the first failing
node aborts the whole render. -/
def renderRows (taskStartTimeMs taskTimeMs : ℤ) :
    List FlatNode → Except RenderError (List Row)
  | [] => .ok []
  | n :: rest =>
    match renderNode taskStartTimeMs taskTimeMs n with
    | .error e => .error e
    | .ok row =>
      match renderRows taskStartTimeMs taskTimeMs rest with
      | .error e => .error e
      | .ok rows => .ok (row :: rows)

/-- The input document `data` (visualize.js lines 80-88).  `colorToId` is
omitted: it feeds only `addCssColors`, which writes CSS style rules and is
not touched by any claim. -/
structure Data where
  title : String
  subtitle : String
  taskStartTimeMs : ℤ
  taskEndTimeMs : ℤ
  builds : List Build

/-- The layout description produced by one successful render: the escaped
title and subtitle (visualize.js lines 191-192), the rows in
flattened-node order, and the tick plan. -/
structure Chart where
  titleHtml : String
  subtitleHtml : String
  rows : List Row
  tickPlan : TickPlan

/-- `renderChart` (visualize.js lines 88-194) as a function to a layout
description.  On failure nothing is produced: the source assigns
`innerHTML` only at lines 191-193, after every row has been built, so an
exception in the node loop leaves the page without a chart. -/
def renderChart (data : Data) : Except RenderError Chart :=
  let taskTimeMs := data.taskEndTimeMs - data.taskStartTimeMs
  let plan := addCssGridMarks taskTimeMs
  let nodes := getNodeList data.builds
  match renderRows data.taskStartTimeMs taskTimeMs nodes with
  | .error e => .error e
  | .ok rows =>
    .ok { titleHtml := safe data.title, subtitleHtml := safe data.subtitle,
          rows := rows, tickPlan := plan }

/-- `chainFrom t l`: from running time `t` on, the intervals of `l` satisfy
the data-model invariants: each starts no earlier than the running time
(`endTimeMs <= next startTimeMs`, first one bounded by `t`) and ends no
earlier than it starts. -/
def chainFrom (t : ℤ) : List Interval → Prop
  | [] => True
  | iv :: rest => t ≤ iv.startTimeMs ∧ iv.startTimeMs ≤ iv.endTimeMs ∧
      chainFrom iv.endTimeMs rest

/-- End time of the last interval of the list, `t` for the empty list. -/
def lastEnd (t : ℤ) : List Interval → ℤ
  | [] => t
  | iv :: rest => lastEnd iv.endTimeMs rest

/-- The intervals are contiguous from `t`: each starts exactly where the
previous one ended. -/
def contiguousFrom (t : ℤ) : List Interval → Prop
  | [] => True
  | iv :: rest => iv.startTimeMs = t ∧ contiguousFrom iv.endTimeMs rest

/-- Sum of the raw durations of the intervals in a list. -/
def widthSum (l : List Interval) : ℤ :=
  (l.map fun iv => iv.endTimeMs - iv.startTimeMs).sum

/-- A JavaScript object in the heap model used for the mutation claims: an
input tree node (the three added fields `none`) or a flattened copy (the
three fields `some`).  `children` holds references into the store. -/
structure HNode where
  name : String
  intervals : List Interval
  children : List ℕ
  id : Option ℕ
  parentIDs : Option (List ℕ)
  hasChildren : Option Bool

mutual
/-- Heap model of `flattenNodes` (visualize.js lines 27-34): read the node
at `ref`, allocate the spread copy `{...node, id, parentIDs, hasChildren}`
as a fresh object at the end of the store, and recurse into the children.
`fuel` bounds the recursion depth (the source assumes tree-shaped input);
`acc` is the `nodes` array, holding references to the flattened copies. -/
def flattenNodesH (fuel : ℕ) (store : List HNode) (ref : ℕ)
    (parentIDs : List ℕ) (acc : List ℕ) : List HNode × List ℕ :=
  match fuel with
  | 0 => (store, acc)
  | fuel + 1 =>
    match store.get? ref with
    | none => (store, acc)
    | some node =>
      let myID := acc.length
      let fresh : HNode :=
        { node with id := some myID, parentIDs := some parentIDs,
                    hasChildren := some (!node.children.isEmpty) }
      flattenChildrenH fuel node.children (parentIDs ++ [myID])
        (store ++ [fresh]) (acc ++ [store.length])

/-- Heap model of the `node.children.forEach` loop of visualize.js
line 33. -/
def flattenChildrenH (fuel : ℕ) (cs : List ℕ) (parentIDs : List ℕ)
    (store : List HNode) (acc : List ℕ) : List HNode × List ℕ :=
  match cs with
  | [] => (store, acc)
  | c :: rest =>
    let r := flattenNodesH fuel store c parentIDs acc
    flattenChildrenH fuel rest parentIDs r.1 r.2
end

/-- Heap model of `getNodeList` (visualize.js lines 23-38): flatten every
root reference in order, starting from the empty `nodes` array. -/
def getNodeListH (fuel : ℕ) (store : List HNode) (roots : List ℕ) :
    List HNode × List ℕ :=
  roots.foldl (fun st root => flattenNodesH fuel st.1 root [] st.2) (store, [])

/-- Every id in the list equals its index: the invariant established by the
flattener. -/
def idsOK (l : List FlatNode) : Prop :=
  ∀ i (hi : i < l.length), (l.get ⟨i, hi⟩).id = i

/-- Recover the original node from a flattened record (the spread copy kept
`name`, `intervals` and `children` unchanged). -/
def origNode (fn : FlatNode) : NodeT :=
  .mk fn.name fn.intervals fn.children

/-- Total number of nodes across all root trees of a builds list. -/
def sizeBuilds (builds : List Build) : ℕ :=
  (builds.map fun b => sizeNode b.nodeRoot).sum

/-- Concrete example interval used in the example trees. -/
def ivr : Interval :=
  { startTimeMs := 0, endTimeMs := 9, timeRangeRelativeToBuildStart := "r",
    mode := "RUNNING", colorId := .cid 3 }

/-- Concrete example interval used in the example trees. -/
def ivk : Interval :=
  { startTimeMs := 1, endTimeMs := 8, timeRangeRelativeToBuildStart := "k",
    mode := "SLEEPING", colorId := .cid 4 }

/-- Concrete example child tree. -/
def kidTree : NodeT := .mk "kid" [ivk] []

/-- Concrete example builds list: one build whose root has one child. -/
def exBuilds : List Build := [{ nodeRoot := .mk "root" [ivr] [kidTree] }]

/-- The first record `getNodeList exBuilds` produces. -/
def rootFN : FlatNode :=
  { name := "root", intervals := [ivr], children := [kidTree], id := 0,
    parentIDs := [], hasChildren := true }

/-- The second record `getNodeList exBuilds` produces. -/
def kidFN : FlatNode :=
  { name := "kid", intervals := [ivk], children := [], id := 1,
    parentIDs := [0], hasChildren := false }

/-- Concrete example document whose single node has no intervals, for the
C8 witness. -/
def data8 : Data :=
  { title := "T", subtitle := "S", taskStartTimeMs := 0, taskEndTimeMs := 100,
    builds := [{ nodeRoot := .mk "empty" [] [] }] }

/-- The single record `getNodeList data8.builds` produces. -/
def emptyFN : FlatNode :=
  { name := "empty", intervals := [], children := [], id := 0,
    parentIDs := [], hasChildren := false }

/-- Concrete example heap for the C10 witness: a root object at index 0
whose single child is at index 1. -/
def store10 : List HNode :=
  [{ name := "root", intervals := [ivr], children := [1], id := none,
     parentIDs := none, hasChildren := none },
   { name := "kid", intervals := [ivk], children := [], id := none,
     parentIDs := none, hasChildren := none }]

/-- The escaping example string from the specification: all five reserved
characters appear. -/
def nasty : String := "<script>&\"'</script>"

/-- Concrete example document for the C9 witness: the untrusted string
appears as the title and as the node name. -/
def data9 : Data :=
  { title := nasty, subtitle := "sub", taskStartTimeMs := 0, taskEndTimeMs := 100,
    builds := [{ nodeRoot := .mk nasty [ivr] [] }] }

/-- The layout `renderChart data9` produces. -/
def chart9 : Chart :=
  { titleHtml := safe nasty, subtitleHtml := safe "sub",
    rows := [{ labelHtml := safe nasty, id := 0, parentIDs := [],
               hasChildren := false,
               intervals := intervalBoxes (100 - 0)
                 ({ startTimeMs := 0, endTimeMs := 0,
                    timeRangeRelativeToBuildStart := "",
                    mode := "[build not started]",
                    colorId := .transparent } :: [ivr]) }],
    tickPlan := addCssGridMarks (100 - 0) }

/-- Concrete example input: a leaf flattened node with one degenerate
(zero-width) interval, for the C4 witness. -/
def exNode4 : FlatNode :=
  { name := "n",
    intervals := [{ startTimeMs := 3, endTimeMs := 3,
                    timeRangeRelativeToBuildStart := "t", mode := "WAITING",
                    colorId := .cid 2 }],
    children := [], id := 0, parentIDs := [], hasChildren := false }

/-- The row `renderNode 0 10 exNode4` produces: a 30% transparent synthetic
segment followed by the zero-width real segment. -/
def exRow4 : Row :=
  { labelHtml := "n", id := 0, parentIDs := [], hasChildren := false,
    intervals := [{ pct := 30, colorId := .transparent,
                    modeHtml := "[build not started]", timeRange := "" },
                  { pct := 0, colorId := .cid 2, modeHtml := "WAITING",
                    timeRange := "t" }] }

/-- Concrete example input for the C5 counterexample: two well-formed
intervals with a gap between them; the final one ends exactly at the task
end time 100. -/
def gapNode : FlatNode :=
  { name := "g",
    intervals := [{ startTimeMs := 0, endTimeMs := 50,
                    timeRangeRelativeToBuildStart := "a", mode := "RUNNING",
                    colorId := .cid 1 },
                  { startTimeMs := 60, endTimeMs := 100,
                    timeRangeRelativeToBuildStart := "b", mode := "RUNNING",
                    colorId := .cid 1 }],
    children := [], id := 0, parentIDs := [], hasChildren := false }

/-- The row `renderNode 0 100 fullNode` produces: zero-width synthetic
segment, then two 50% segments. -/
def fullRow : Row :=
  { labelHtml := "f", id := 0, parentIDs := [], hasChildren := false,
    intervals := [{ pct := 0, colorId := .transparent,
                    modeHtml := "[build not started]", timeRange := "" },
                  { pct := 50, colorId := .cid 1, modeHtml := "RUNNING",
                    timeRange := "a" },
                  { pct := 50, colorId := .cid 1, modeHtml := "RUNNING",
                    timeRange := "b" }] }

/-- Concrete example input for the C5 witness: two contiguous intervals
covering the whole task window [0, 100]. -/
def fullNode : FlatNode :=
  { name := "f",
    intervals := [{ startTimeMs := 0, endTimeMs := 50,
                    timeRangeRelativeToBuildStart := "a", mode := "RUNNING",
                    colorId := .cid 1 },
                  { startTimeMs := 50, endTimeMs := 100,
                    timeRangeRelativeToBuildStart := "b", mode := "RUNNING",
                    colorId := .cid 1 }],
    children := [], id := 0, parentIDs := [], hasChildren := false }

end JPV

namespace JPV

/-- Unfolding equation of the while loop. -/
theorem gridLoop_unfold (d : ℤ) (t : ℕ) :
    gridLoop d t = if (d : ℚ) / (t : ℚ) > 20 then gridLoop d (t + 60000) else t := by
  rw [gridLoop]

/-- The loop only ever adds multiples of 60000 ms to the starting interval. -/
theorem gridLoop_multiple (d : ℤ) (t : ℕ) : ∃ m : ℕ, gridLoop d t = t + 60000 * m := by
  induction t using gridLoop.induct d with
  | case1 t hc ih =>
    obtain ⟨m, hm⟩ := ih
    exact ⟨m + 1, by rw [gridLoop_unfold, if_pos hc, hm]; ring⟩
  | case2 t hc =>
    exact ⟨0, by rw [gridLoop_unfold, if_neg hc]; omega⟩

/-- At the interval the loop returns, the tick count is not above 20. -/
theorem gridLoop_le (d : ℤ) (t : ℕ) :
    ¬ ((d : ℚ) / (gridLoop d t : ℚ) > 20) := by
  induction t using gridLoop.induct d with
  | case1 t hc ih => rwa [gridLoop_unfold, if_pos hc]
  | case2 t hc => rwa [gridLoop_unfold, if_neg hc]

/-- Every candidate interval the loop stepped past had too many ticks. -/
theorem gridLoop_min (d : ℤ) (t : ℕ) :
    ∀ m : ℕ, t + 60000 * m < gridLoop d t → (d : ℚ) / ((t + 60000 * m : ℕ) : ℚ) > 20 := by
  induction t using gridLoop.induct d with
  | case1 t hc ih =>
    intro m hm
    match m with
    | 0 => simpa using hc
    | m + 1 =>
      have := ih m (by rw [gridLoop_unfold, if_pos hc] at hm; omega)
      have harg : t + 60000 + 60000 * m = t + 60000 * (m + 1) := by ring
      rwa [harg] at this
  | case2 t hc =>
    intro m hm
    rw [gridLoop_unfold, if_neg hc] at hm
    omega

theorem addCssGridMarks_tick (d : ℤ) :
    (addCssGridMarks d).tickIntervalMs = gridLoop d 60000 := rfl

theorem addCssGridMarks_numTicks (d : ℤ) :
    (addCssGridMarks d).numTicks = (d : ℚ) / ((gridLoop d 60000 : ℕ) : ℚ) := rfl

/-- Concrete run for a 60-minute duration: the loop steps 60000 → 120000 →
180000 and stops there. -/
theorem gridLoop_example : gridLoop 3600000 60000 = 180000 := by
  rw [gridLoop_unfold]
  norm_num
  rw [gridLoop_unfold]
  norm_num
  rw [gridLoop_unfold]
  norm_num

theorem addCssGridMarks_example :
    addCssGridMarks 3600000 = { numTicks := 20, tickIntervalMs := 180000 } := by
  unfold addCssGridMarks
  rw [show (60 * 1000 : ℕ) = 60000 from rfl, gridLoop_example]
  norm_num [TickPlan.mk.injEq]

/-- For a non-positive duration the loop body never runs. -/
theorem gridLoop_nonpos (d : ℤ) (hd : d ≤ 0) : gridLoop d 60000 = 60000 := by
  rw [gridLoop_unfold, if_neg]
  intro hgt
  have h1 : (d : ℚ) ≤ 0 := by exact_mod_cast hd
  have h2 : (d : ℚ) / ((60000 : ℕ) : ℚ) ≤ 0 := by
    apply div_nonpos_iff.mpr
    right
    exact ⟨h1, by norm_num⟩
  linarith

end JPV

namespace JPV

/-- C1: for every positive `durationMs`, the tick planner returns
`tickIntervalMs` equal to the smallest positive multiple of 60000 ms whose
tick count `durationMs / tickIntervalMs` is at most 20, and `numTicks`
equal to that real-valued quotient, so `numTicks` never exceeds 20; for
`durationMs = 3600000` the result is `tickIntervalMs = 180000`,
`numTicks = 20`. -/
theorem C1_tick_planner (d : ℤ) (hd : 0 < d) :
    (∃ k : ℕ, 1 ≤ k ∧ (addCssGridMarks d).tickIntervalMs = 60000 * k) ∧
    (d : ℚ) / ((addCssGridMarks d).tickIntervalMs : ℚ) ≤ 20 ∧
    (∀ k : ℕ, 1 ≤ k → (d : ℚ) / ((60000 * k : ℕ) : ℚ) ≤ 20 →
      (addCssGridMarks d).tickIntervalMs ≤ 60000 * k) ∧
    (addCssGridMarks d).numTicks = (d : ℚ) / ((addCssGridMarks d).tickIntervalMs : ℚ) ∧
    (addCssGridMarks d).numTicks ≤ 20 ∧
    addCssGridMarks 3600000 = { numTicks := 20, tickIntervalMs := 180000 } := by
  refine ⟨?_, ?_, ?_, ?_, ?_, addCssGridMarks_example⟩
  · obtain ⟨m, hm⟩ := gridLoop_multiple d 60000
    exact ⟨1 + m, by omega, by rw [addCssGridMarks_tick, hm]; ring⟩
  · rw [addCssGridMarks_tick]
    exact le_of_not_lt (gridLoop_le d 60000)
  · intro k hk hkle
    by_contra hlt
    push_neg at hlt
    rw [addCssGridMarks_tick] at hlt
    have harg : (60000 : ℕ) + 60000 * (k - 1) = 60000 * k := by omega
    have := gridLoop_min d 60000 (k - 1) (by omega)
    rw [harg] at this
    exact absurd hkle (by simpa using this)
  · rw [addCssGridMarks_numTicks, addCssGridMarks_tick]
  · rw [addCssGridMarks_numTicks]
    exact le_of_not_lt (gridLoop_le d 60000)

/-- Witness for C1 at `durationMs = 3600000`. -/
theorem C1_witness :
    (addCssGridMarks 3600000).numTicks ≤ 20 ∧
    addCssGridMarks 3600000 = { numTicks := 20, tickIntervalMs := 180000 } := by
  have h := C1_tick_planner 3600000 (by norm_num)
  exact ⟨h.2.2.2.2.1, h.2.2.2.2.2⟩

/-- C2 counterexample: at `durationMs = 0` the planner does not fail: it is
a total function and returns the tick plan `numTicks = 0`,
`tickIntervalMs = 60000` (in the source, `addCssGridMarks` performs no
validation and returns normally). -/
theorem C2_counterexample :
    addCssGridMarks 0 = { numTicks := 0, tickIntervalMs := 60000 } := by
  unfold addCssGridMarks
  rw [show (60 * 1000 : ℕ) = 60000 from rfl, gridLoop_nonpos 0 le_rfl]
  norm_num [TickPlan.mk.injEq]

/-- C2 amended: for every non-positive `durationMs` the planner performs no
validation and does not fail; the loop body never runs, so it returns
`tickIntervalMs = 60000` and `numTicks = durationMs / 60000` (which is 0
for duration 0 and negative for negative durations). -/
theorem C2_amended (d : ℤ) (hd : d ≤ 0) :
    addCssGridMarks d = { numTicks := (d : ℚ) / 60000, tickIntervalMs := 60000 } := by
  unfold addCssGridMarks
  rw [show (60 * 1000 : ℕ) = 60000 from rfl, gridLoop_nonpos d hd]
  norm_num [TickPlan.mk.injEq]

/-- Witness for the amended C2 at `durationMs = -60000`. -/
theorem C2_witness :
    addCssGridMarks (-60000) = { numTicks := -1, tickIntervalMs := 60000 } := by
  rw [C2_amended (-60000) (by norm_num)]
  norm_num [TickPlan.mk.injEq]

end JPV

namespace JPV

/-- An ok result of the normalizer has exactly one more interval than the
input. -/
theorem normalizeIntervals_length (t : ℤ) (l norm : List Interval)
    (h : normalizeIntervals t l = .ok norm) : norm.length = l.length + 1 := by
  match l with
  | [] => exact absurd h (by simp [normalizeIntervals])
  | a :: rest =>
    unfold normalizeIntervals at h
    cases h
    simp

/-- C3: for every non-empty interval list, the normalizer prepends exactly
one synthetic interval starting at `taskStartTimeMs`, ending at the first
real interval's start, with mode "[build not started]", empty
relative-time text and the transparent color sentinel; the real intervals
follow unchanged and in order. -/
theorem C3_synthetic_interval (taskStartTimeMs : ℤ) (intervals : List Interval)
    (h : intervals ≠ []) :
    ∃ s : Interval,
      normalizeIntervals taskStartTimeMs intervals = .ok (s :: intervals) ∧
      s.startTimeMs = taskStartTimeMs ∧
      s.endTimeMs = (intervals.head h).startTimeMs ∧
      s.mode = "[build not started]" ∧
      s.timeRangeRelativeToBuildStart = "" ∧
      s.colorId = ColorId.transparent := by
  match intervals with
  | first :: rest => exact ⟨_, rfl, rfl, rfl, rfl, rfl, rfl⟩

/-- Witness for C3 on a concrete one-interval list. -/
theorem C3_witness :
    ∃ s : Interval,
      normalizeIntervals 2
          [{ startTimeMs := 5, endTimeMs := 9,
             timeRangeRelativeToBuildStart := "r", mode := "RUNNING",
             colorId := .cid 1 }] =
        .ok (s :: [{ startTimeMs := 5, endTimeMs := 9,
                     timeRangeRelativeToBuildStart := "r", mode := "RUNNING",
                     colorId := .cid 1 }]) ∧
      s.startTimeMs = 2 ∧
      s.endTimeMs = 5 ∧
      s.mode = "[build not started]" ∧
      s.timeRangeRelativeToBuildStart = "" ∧
      s.colorId = ColorId.transparent :=
  C3_synthetic_interval 2 _ (by simp)

/-- C4: for every emitted interval (synthetic plus real, in order) the
width percentage equals `(endTimeMs - startTimeMs) * 100 / taskTimeMs`;
zero-width intervals are still emitted with width 0, mode and color, none
is dropped, and no width is clamped. -/
theorem C4_interval_widths (taskStartTimeMs taskTimeMs : ℤ) (node : FlatNode)
    (row : Row) (h : renderNode taskStartTimeMs taskTimeMs node = .ok row) :
    ∃ norm : List Interval,
      normalizeIntervals taskStartTimeMs node.intervals = .ok norm ∧
      row.intervals.length = norm.length ∧
      norm.length = node.intervals.length + 1 ∧
      (∀ (i : ℕ) (iv : Interval), norm.get? i = some iv →
        row.intervals.get? i = some
          { pct := ((iv.endTimeMs - iv.startTimeMs : ℤ) : ℚ) * 100 / (taskTimeMs : ℚ),
            colorId := iv.colorId, modeHtml := safe iv.mode,
            timeRange := iv.timeRangeRelativeToBuildStart }) ∧
      (∀ (i : ℕ) (iv : Interval), norm.get? i = some iv →
        iv.endTimeMs = iv.startTimeMs →
        ∃ b : IntervalBox, row.intervals.get? i = some b ∧ b.pct = 0 ∧
          b.colorId = iv.colorId ∧ b.modeHtml = safe iv.mode) := by
  unfold renderNode at h
  cases hn : normalizeIntervals taskStartTimeMs node.intervals with
  | error e => rw [hn] at h; cases h
  | ok norm =>
    rw [hn] at h
    cases h
    have hmap : ∀ (i : ℕ) (iv : Interval), norm.get? i = some iv →
        (intervalBoxes taskTimeMs norm).get? i = some
          { pct := ((iv.endTimeMs - iv.startTimeMs : ℤ) : ℚ) * 100 / (taskTimeMs : ℚ),
            colorId := iv.colorId, modeHtml := safe iv.mode,
            timeRange := iv.timeRangeRelativeToBuildStart } := by
      intro i iv hi
      unfold intervalBoxes
      rw [List.get?_map, hi]
      rfl
    refine ⟨norm, rfl, by simp [intervalBoxes], normalizeIntervals_length _ _ _ hn,
      hmap, ?_⟩
    intro i iv hi hz
    refine ⟨_, hmap i iv hi, ?_, rfl, rfl⟩
    rw [hz]
    simp

/-- The concrete render of `exNode4`: synthetic 30% segment plus the
zero-width real segment. -/
theorem renderNode_exNode4 : renderNode 0 10 exNode4 = .ok exRow4 := by
  have h0 : renderNode 0 10 exNode4 = Except.ok
      { labelHtml := safe "n", id := 0, parentIDs := [], hasChildren := false,
        intervals := intervalBoxes 10
          ({ startTimeMs := 0, endTimeMs := 3, timeRangeRelativeToBuildStart := "",
             mode := "[build not started]", colorId := .transparent } ::
           exNode4.intervals) } := rfl
  rw [h0]
  norm_num [exNode4, exRow4, intervalBoxes, Row.mk.injEq, IntervalBox.mk.injEq]
  exact ⟨rfl, rfl, rfl⟩

/-- Witness for C4 on a node whose single real interval has zero width. -/
theorem C4_witness :
    ∃ norm : List Interval,
      normalizeIntervals 0 exNode4.intervals = .ok norm ∧
      exRow4.intervals.length = norm.length ∧
      norm.length = exNode4.intervals.length + 1 ∧
      (∀ (i : ℕ) (iv : Interval), norm.get? i = some iv →
        exRow4.intervals.get? i = some
          { pct := ((iv.endTimeMs - iv.startTimeMs : ℤ) : ℚ) * 100 / ((10 : ℤ) : ℚ),
            colorId := iv.colorId, modeHtml := safe iv.mode,
            timeRange := iv.timeRangeRelativeToBuildStart }) ∧
      (∀ (i : ℕ) (iv : Interval), norm.get? i = some iv →
        iv.endTimeMs = iv.startTimeMs →
        ∃ b : IntervalBox, exRow4.intervals.get? i = some b ∧ b.pct = 0 ∧
          b.colorId = iv.colorId ∧ b.modeHtml = safe iv.mode) :=
  C4_interval_widths 0 10 exNode4 exRow4 renderNode_exNode4

end JPV

namespace JPV

/-- A chained interval list ends no earlier than it starts. -/
theorem chainFrom_lastEnd (t : ℤ) (l : List Interval) (h : chainFrom t l) :
    t ≤ lastEnd t l := by
  induction l generalizing t with
  | nil => simp [lastEnd]
  | cons iv rest ih =>
    obtain ⟨h1, h2, h3⟩ := h
    have := ih iv.endTimeMs h3
    show t ≤ lastEnd iv.endTimeMs rest
    linarith

/-- For a chained interval list, the summed durations are bounded by the
span from `t` to the last end time, with equality exactly when the list is
contiguous. -/
theorem chainFrom_sum (t : ℤ) (l : List Interval) (h : chainFrom t l) :
    widthSum l ≤ lastEnd t l - t ∧
    (widthSum l = lastEnd t l - t ↔ contiguousFrom t l) := by
  induction l generalizing t with
  | nil => simp [widthSum, lastEnd, contiguousFrom]
  | cons iv rest ih =>
    obtain ⟨h1, h2, h3⟩ := h
    obtain ⟨ihle, ihiff⟩ := ih iv.endTimeMs h3
    have hle2 : iv.endTimeMs ≤ lastEnd iv.endTimeMs rest := chainFrom_lastEnd _ _ h3
    have wcons : widthSum (iv :: rest) =
        (iv.endTimeMs - iv.startTimeMs) + widthSum rest := by simp [widthSum]
    have lcons : lastEnd t (iv :: rest) = lastEnd iv.endTimeMs rest := rfl
    constructor
    · rw [wcons, lcons]
      linarith
    · constructor
      · intro heq
        rw [wcons, lcons] at heq
        have hs : iv.startTimeMs = t := by linarith
        have hW : widthSum rest = lastEnd iv.endTimeMs rest - iv.endTimeMs := by linarith
        exact ⟨hs, ihiff.mp hW⟩
      · intro hc
        obtain ⟨hs, hrest⟩ := hc
        have hW := ihiff.mpr hrest
        rw [wcons, lcons]
        linarith

/-- The summed width percentages of a list of emitted segments equal the
summed raw durations scaled by `100 / taskTimeMs`. -/
theorem intervalBoxes_pct_sum (T : ℤ) (l : List Interval) :
    ((intervalBoxes T l).map fun b => b.pct).sum =
      ((widthSum l : ℤ) : ℚ) * 100 / (T : ℚ) := by
  induction l with
  | nil => simp [intervalBoxes, widthSum]
  | cons iv rest ih =>
    have hcons : intervalBoxes T (iv :: rest) =
        { pct := ((iv.endTimeMs - iv.startTimeMs : ℤ) : ℚ) * 100 / (T : ℚ),
          colorId := iv.colorId, modeHtml := safe iv.mode,
          timeRange := iv.timeRangeRelativeToBuildStart } :: intervalBoxes T rest := rfl
    have wcons : widthSum (iv :: rest) =
        (iv.endTimeMs - iv.startTimeMs) + widthSum rest := by simp [widthSum]
    rw [hcons, List.map_cons, List.sum_cons, ih, wcons]
    push_cast
    ring

/-- C5 counterexample: with taskStartTimeMs = 0 and taskEndTimeMs = 100,
`gapNode` has well-formed intervals whose final interval ends exactly at
taskEndTimeMs, yet the emitted widths sum to 90%, not 100%: the claimed
equivalence fails whenever the real intervals have a gap between them. -/
theorem C5_counterexample :
    ((renderNode 0 100 gapNode).map fun row =>
      (row.intervals.map fun b => b.pct).sum) = .ok 90 ∧
    (gapNode.intervals.getLast?.map fun iv => iv.endTimeMs) = some 100 ∧
    chainFrom 0 gapNode.intervals ∧
    (90 : ℚ) ≠ 100 := by
  refine ⟨?_, by rfl, by norm_num [chainFrom, gapNode], by norm_num⟩
  have h0 : renderNode 0 100 gapNode = Except.ok
      { labelHtml := safe "g", id := 0, parentIDs := [], hasChildren := false,
        intervals := intervalBoxes 100
          ({ startTimeMs := 0, endTimeMs := 0, timeRangeRelativeToBuildStart := "",
             mode := "[build not started]", colorId := .transparent } ::
           gapNode.intervals) } := rfl
  rw [h0]
  show Except.ok _ = _
  norm_num [intervalBoxes, gapNode]

end JPV

namespace JPV

/-- C5 amended: for a node with well-formed intervals inside the task
window, the emitted widths (synthetic included) sum to at most 100%, and
sum to exactly 100% precisely when the real intervals are contiguous (no
internal gap) AND the final interval ends at taskEndTimeMs; in every other
case the sum is strictly below 100%. -/
theorem C5_amended_width_sum (taskStartTimeMs taskEndTimeMs : ℤ) (node : FlatNode)
    (row : Row) (first : Interval) (rest : List Interval)
    (hiv : node.intervals = first :: rest)
    (hT : taskStartTimeMs < taskEndTimeMs)
    (hchain : chainFrom taskStartTimeMs node.intervals)
    (hlast : lastEnd taskStartTimeMs node.intervals ≤ taskEndTimeMs)
    (h : renderNode taskStartTimeMs (taskEndTimeMs - taskStartTimeMs) node = .ok row) :
    ((row.intervals.map fun b => b.pct).sum ≤ 100) ∧
    (((row.intervals.map fun b => b.pct).sum = 100) ↔
      (contiguousFrom first.startTimeMs node.intervals ∧
       lastEnd taskStartTimeMs node.intervals = taskEndTimeMs)) := by
  rw [hiv] at hchain hlast ⊢
  obtain ⟨hc1, hc2, hc3⟩ := hchain
  unfold renderNode at h
  rw [hiv] at h
  unfold normalizeIntervals at h
  cases h
  set pre : Interval :=
    { startTimeMs := taskStartTimeMs, endTimeMs := first.startTimeMs,
      timeRangeRelativeToBuildStart := "", mode := "[build not started]",
      colorId := .transparent } with hpre
  have hchainN : chainFrom taskStartTimeMs (pre :: first :: rest) :=
    ⟨le_refl _, hc1, le_refl _, hc2, hc3⟩
  obtain ⟨hle, hiff⟩ := chainFrom_sum taskStartTimeMs (pre :: first :: rest) hchainN
  have hLE : lastEnd taskStartTimeMs (pre :: first :: rest) =
      lastEnd taskStartTimeMs (first :: rest) := rfl
  rw [hLE] at hle hiff
  have hT0 : (0 : ℚ) < ((taskEndTimeMs - taskStartTimeMs : ℤ) : ℚ) := by
    exact_mod_cast (by omega : (0 : ℤ) < taskEndTimeMs - taskStartTimeMs)
  have hTne : ((taskEndTimeMs - taskStartTimeMs : ℤ) : ℚ) ≠ 0 := ne_of_gt hT0
  have hsum : ((intervalBoxes (taskEndTimeMs - taskStartTimeMs)
        (pre :: first :: rest)).map fun b => b.pct).sum =
      ((widthSum (pre :: first :: rest) : ℤ) : ℚ) * 100
        / ((taskEndTimeMs - taskStartTimeMs : ℤ) : ℚ) :=
    intervalBoxes_pct_sum _ _
  constructor
  · rw [hsum, div_le_iff₀ hT0]
    have hZ : widthSum (pre :: first :: rest) * 100 ≤
        100 * (taskEndTimeMs - taskStartTimeMs) := by nlinarith [hle, hlast]
    calc ((widthSum (pre :: first :: rest) : ℤ) : ℚ) * 100
        ≤ ((100 * (taskEndTimeMs - taskStartTimeMs) : ℤ) : ℚ) := by
          exact_mod_cast hZ
      _ = 100 * ((taskEndTimeMs - taskStartTimeMs : ℤ) : ℚ) := by push_cast; ring
  · rw [hsum, div_eq_iff hTne]
    constructor
    · intro hq
      have hz : widthSum (pre :: first :: rest) * 100 =
          100 * (taskEndTimeMs - taskStartTimeMs) := by
        have hq2 : ((widthSum (pre :: first :: rest) * 100 : ℤ) : ℚ) =
            ((100 * (taskEndTimeMs - taskStartTimeMs) : ℤ) : ℚ) := by
          push_cast
          push_cast at hq
          linarith
        exact_mod_cast hq2
      have hWT : widthSum (pre :: first :: rest) =
          taskEndTimeMs - taskStartTimeMs := by linarith
      have hlastEq : lastEnd taskStartTimeMs (first :: rest) = taskEndTimeMs := by
        linarith
      have hWL : widthSum (pre :: first :: rest) =
          lastEnd taskStartTimeMs (first :: rest) - taskStartTimeMs := by linarith
      have hcont := hiff.mp hWL
      exact ⟨hcont.2, hlastEq⟩
    · intro hcl
      obtain ⟨hcont, hlastEq⟩ := hcl
      have hWL : widthSum (pre :: first :: rest) =
          lastEnd taskStartTimeMs (first :: rest) - taskStartTimeMs :=
        hiff.mpr ⟨rfl, hcont⟩
      rw [hWL, hlastEq]
      push_cast
      ring

/-- The concrete render of `fullNode` for the task window [0, 100]. -/
theorem renderNode_fullNode : renderNode 0 100 fullNode = .ok fullRow := by
  have h0 : renderNode 0 100 fullNode = Except.ok
      { labelHtml := safe "f", id := 0, parentIDs := [], hasChildren := false,
        intervals := intervalBoxes 100
          ({ startTimeMs := 0, endTimeMs := 0, timeRangeRelativeToBuildStart := "",
             mode := "[build not started]", colorId := .transparent } ::
           fullNode.intervals) } := rfl
  rw [h0]
  norm_num [fullNode, fullRow, intervalBoxes, Row.mk.injEq, IntervalBox.mk.injEq]
  and_intros <;> rfl

/-- Witness for the amended C5 on `fullNode`: contiguous intervals ending
at the task end give a width sum of exactly 100%. -/
theorem C5_witness :
    ((fullRow.intervals.map fun b => b.pct).sum ≤ 100) ∧
    (((fullRow.intervals.map fun b => b.pct).sum = 100) ↔
      (contiguousFrom (0 : ℤ) fullNode.intervals ∧
       lastEnd 0 fullNode.intervals = 100)) :=
  C5_amended_width_sum 0 100 fullNode fullRow
    { startTimeMs := 0, endTimeMs := 50, timeRangeRelativeToBuildStart := "a",
      mode := "RUNNING", colorId := .cid 1 }
    [{ startTimeMs := 50, endTimeMs := 100, timeRangeRelativeToBuildStart := "b",
       mode := "RUNNING", colorId := .cid 1 }]
    rfl (by norm_num) (by norm_num [chainFrom, fullNode])
    (by norm_num [lastEnd, fullNode]) renderNode_fullNode

end JPV

namespace JPV

mutual
/-- Flattening one tree appends exactly `sizeNode` new records. -/
theorem flattenNodes_length (node : NodeT) (p : List ℕ) (acc : List FlatNode) :
    (flattenNodes node p acc).length = acc.length + sizeNode node := by
  match node with
  | .mk name intervals children =>
    rw [flattenNodes, flattenChildren_length, sizeNode]
    simp
    omega

/-- Flattening a forest appends exactly `sizeChildren` new records. -/
theorem flattenChildren_length (cs : List NodeT) (p : List ℕ) (acc : List FlatNode) :
    (flattenChildren cs p acc).length = acc.length + sizeChildren cs := by
  match cs with
  | [] => rw [flattenChildren, sizeChildren]; omega
  | c :: rest =>
    rw [flattenChildren, flattenChildren_length, flattenNodes_length, sizeChildren]
    omega
end

end JPV

namespace JPV

/-- Appending a record whose id is the current length preserves `idsOK`. -/
theorem idsOK_append (acc : List FlatNode) (r : FlatNode) (h : idsOK acc)
    (hr : r.id = acc.length) : idsOK (acc ++ [r]) := by
  intro i hi
  rcases Nat.lt_or_ge i acc.length with hlt | hge
  · rw [List.get_append i hlt]
    exact h i hlt
  · have hieq : i = acc.length := by
      have := hi
      simp only [List.length_append, List.length_singleton] at this
      omega
    subst hieq
    rw [List.get_of_append rfl rfl]
    exact hr

mutual
/-- Flattening one tree preserves the id-equals-index invariant. -/
theorem flattenNodes_idsOK (node : NodeT) (p : List ℕ) (acc : List FlatNode)
    (h : idsOK acc) : idsOK (flattenNodes node p acc) := by
  match node with
  | .mk name intervals children =>
    rw [flattenNodes]
    exact flattenChildren_idsOK children _ _ (idsOK_append acc _ h rfl)

/-- Flattening a forest preserves the id-equals-index invariant. -/
theorem flattenChildren_idsOK (cs : List NodeT) (p : List ℕ) (acc : List FlatNode)
    (h : idsOK acc) : idsOK (flattenChildren cs p acc) := by
  match cs with
  | [] => rw [flattenChildren]; exact h
  | c :: rest =>
    rw [flattenChildren]
    exact flattenChildren_idsOK rest p _ (flattenNodes_idsOK c p acc h)
end

/-- The folded flattening of all builds: length adds the total size, and the
id-equals-index invariant is preserved. -/
theorem getNodeListAux (builds : List Build) (acc : List FlatNode) :
    (builds.foldl (fun nodes build => flattenNodes build.nodeRoot [] nodes) acc).length =
      acc.length + sizeBuilds builds ∧
    (idsOK acc →
      idsOK (builds.foldl (fun nodes build => flattenNodes build.nodeRoot [] nodes) acc)) := by
  induction builds generalizing acc with
  | nil => simp [sizeBuilds]
  | cons b rest ih =>
    obtain ⟨ihlen, ihids⟩ := ih (flattenNodes b.nodeRoot [] acc)
    constructor
    · rw [List.foldl_cons, ihlen, flattenNodes_length]
      simp [sizeBuilds]
      omega
    · intro h
      rw [List.foldl_cons]
      exact ihids (flattenNodes_idsOK b.nodeRoot [] acc h)

end JPV

namespace JPV

/-- C6: flattening builds with N nodes in total produces exactly N
records, every record's id equals its index in the output list, and the
ids are exactly the integers 0 through N-1 in order. -/
theorem C6_flattener_bijection (builds : List Build) :
    (getNodeList builds).length = sizeBuilds builds ∧
    idsOK (getNodeList builds) ∧
    (getNodeList builds).map (fun fn => fn.id) =
      List.range (getNodeList builds).length := by
  obtain ⟨hlen, hids⟩ := getNodeListAux builds []
  have hOK : idsOK (getNodeList builds) := hids (by intro i hi; simp at hi)
  refine ⟨by simpa [getNodeList] using hlen, hOK, ?_⟩
  apply List.ext_get
  · simp
  · intro n h1 h2
    rw [List.get_map, List.get_range]
    exact hOK n (by simpa using h1)

/-- Witness for C6 on `exBuilds` (two nodes: a root and its child). -/
theorem C6_witness :
    (getNodeList exBuilds).length = sizeBuilds exBuilds ∧
    idsOK (getNodeList exBuilds) ∧
    (getNodeList exBuilds).map (fun fn => fn.id) =
      List.range (getNodeList exBuilds).length :=
  C6_flattener_bijection exBuilds

end JPV

namespace JPV

mutual
/-- Structural invariant of `flattenNodes`: the accumulator is only
extended; parent ids stay strictly below the owning id; ids stay below the
list length; and every produced record is either old, the record of the
visited node itself carrying the supplied ancestor chain, or a descendant
record whose chain is its parent's chain extended by the parent's id. -/
theorem flattenNodes_inv (node : NodeT) (p : List ℕ) (acc : List FlatNode)
    (hAll : ∀ fn ∈ acc, ∀ q ∈ fn.parentIDs, q < fn.id)
    (hIds : ∀ fn ∈ acc, fn.id < acc.length)
    (hp : ∀ q ∈ p, q < acc.length) :
    (∃ t, flattenNodes node p acc = acc ++ t) ∧
    (∀ fn ∈ flattenNodes node p acc, ∀ q ∈ fn.parentIDs, q < fn.id) ∧
    (∀ fn ∈ flattenNodes node p acc, fn.id < (flattenNodes node p acc).length) ∧
    (∀ fn ∈ flattenNodes node p acc,
      fn ∈ acc ∨ (fn.parentIDs = p ∧ origNode fn = node) ∨
      (∃ fp, fp ∈ flattenNodes node p acc ∧
        fn.parentIDs = fp.parentIDs ++ [fp.id] ∧ origNode fn ∈ fp.children)) := by
  match node with
  | .mk name intervals children =>
    rw [flattenNodes]
    set rec0 : FlatNode :=
      { name := name, intervals := intervals, children := children,
        id := acc.length, parentIDs := p,
        hasChildren := !children.isEmpty } with hrec0
    have hAll2 : ∀ fn ∈ acc ++ [rec0], ∀ q ∈ fn.parentIDs, q < fn.id := by
      intro fn hfn
      rcases List.mem_append.mp hfn with hfn | hfn
      · exact hAll fn hfn
      · rw [List.mem_singleton.mp hfn]
        exact hp
    have hIds2 : ∀ fn ∈ acc ++ [rec0], fn.id < (acc ++ [rec0]).length := by
      intro fn hfn
      rcases List.mem_append.mp hfn with hfn | hfn
      · have := hIds fn hfn
        simp only [List.length_append, List.length_singleton]
        omega
      · rw [List.mem_singleton.mp hfn]
        simp
    have hp2 : ∀ q ∈ p ++ [acc.length], q < (acc ++ [rec0]).length := by
      intro q hq
      rcases List.mem_append.mp hq with hq | hq
      · have := hp q hq
        simp only [List.length_append, List.length_singleton]
        omega
      · rw [List.mem_singleton.mp hq]
        simp
    obtain ⟨⟨t, ht⟩, G1, G2, G3⟩ :=
      flattenChildren_inv children (p ++ [acc.length]) (acc ++ [rec0]) hAll2 hIds2 hp2
    refine ⟨⟨rec0 :: t, by rw [ht]; simp⟩, G1, G2, ?_⟩
    intro fn hfn
    rcases G3 fn hfn with hout | hmid | hchain
    · rcases List.mem_append.mp hout with hacc | hrec
      · exact .inl hacc
      · refine .inr (.inl ?_)
        rw [List.mem_singleton.mp hrec]
        exact ⟨rfl, rfl⟩
    · refine .inr (.inr ⟨rec0, ?_, hmid.1, hmid.2⟩)
      rw [ht]
      exact List.mem_append_left t (List.mem_append_right acc (List.mem_singleton_self rec0))
    · exact .inr (.inr hchain)

/-- Same invariant for the traversal of a children list. -/
theorem flattenChildren_inv (cs : List NodeT) (p : List ℕ) (acc : List FlatNode)
    (hAll : ∀ fn ∈ acc, ∀ q ∈ fn.parentIDs, q < fn.id)
    (hIds : ∀ fn ∈ acc, fn.id < acc.length)
    (hp : ∀ q ∈ p, q < acc.length) :
    (∃ t, flattenChildren cs p acc = acc ++ t) ∧
    (∀ fn ∈ flattenChildren cs p acc, ∀ q ∈ fn.parentIDs, q < fn.id) ∧
    (∀ fn ∈ flattenChildren cs p acc, fn.id < (flattenChildren cs p acc).length) ∧
    (∀ fn ∈ flattenChildren cs p acc,
      fn ∈ acc ∨ (fn.parentIDs = p ∧ origNode fn ∈ cs) ∨
      (∃ fp, fp ∈ flattenChildren cs p acc ∧
        fn.parentIDs = fp.parentIDs ++ [fp.id] ∧ origNode fn ∈ fp.children)) := by
  match cs with
  | [] =>
    rw [flattenChildren]
    exact ⟨⟨[], by simp⟩, hAll, hIds, fun fn hfn => .inl hfn⟩
  | c :: rest =>
    rw [flattenChildren]
    obtain ⟨⟨t1, ht1⟩, M1, M2, M3⟩ := flattenNodes_inv c p acc hAll hIds hp
    have hpmid : ∀ q ∈ p, q < (flattenNodes c p acc).length := by
      intro q hq
      have h1 := hp q hq
      rw [ht1]
      simp only [List.length_append]
      omega
    obtain ⟨⟨t2, ht2⟩, R1, R2, R3⟩ :=
      flattenChildren_inv rest p (flattenNodes c p acc) M1 M2 hpmid
    refine ⟨⟨t1 ++ t2, by rw [ht2, ht1]; simp⟩, R1, R2, ?_⟩
    intro fn hfn
    rcases R3 fn hfn with hmid | hrest | hchain
    · rcases M3 fn hmid with hacc | hself | hchain2
      · exact .inl hacc
      · refine .inr (.inl ⟨hself.1, ?_⟩)
        rw [hself.2]
        exact List.mem_cons_self c rest
      · obtain ⟨fp, hfp, h1, h2⟩ := hchain2
        refine .inr (.inr ⟨fp, ?_, h1, h2⟩)
        rw [ht2]
        exact List.mem_append_left t2 hfp
    · exact .inr (.inl ⟨hrest.1, List.mem_cons_of_mem c hrest.2⟩)
    · exact .inr (.inr hchain)
end

end JPV

namespace JPV

/-- The invariant carried over the per-build fold of `getNodeList`: every
produced record is either old, a root record with an empty ancestor chain,
or a descendant record chained to its parent. -/
theorem getNodeListAux_inv (builds : List Build) (acc : List FlatNode)
    (hAll : ∀ fn ∈ acc, ∀ q ∈ fn.parentIDs, q < fn.id)
    (hIds : ∀ fn ∈ acc, fn.id < acc.length) :
    (∃ t, builds.foldl (fun nodes build => flattenNodes build.nodeRoot [] nodes) acc =
      acc ++ t) ∧
    (∀ fn ∈ builds.foldl (fun nodes build => flattenNodes build.nodeRoot [] nodes) acc,
      ∀ q ∈ fn.parentIDs, q < fn.id) ∧
    (∀ fn ∈ builds.foldl (fun nodes build => flattenNodes build.nodeRoot [] nodes) acc,
      fn ∈ acc ∨ (fn.parentIDs = [] ∧ ∃ b ∈ builds, origNode fn = b.nodeRoot) ∨
      (∃ fp, fp ∈ builds.foldl (fun nodes build => flattenNodes build.nodeRoot [] nodes) acc ∧
        fn.parentIDs = fp.parentIDs ++ [fp.id] ∧ origNode fn ∈ fp.children)) := by
  induction builds generalizing acc with
  | nil =>
    exact ⟨⟨[], by simp⟩, hAll, fun fn hfn => .inl hfn⟩
  | cons b rest ih =>
    rw [List.foldl_cons]
    obtain ⟨⟨t1, ht1⟩, M1, M2, M3⟩ :=
      flattenNodes_inv b.nodeRoot [] acc hAll hIds (by simp)
    obtain ⟨⟨t2, ht2⟩, R1, R3⟩ := ih (flattenNodes b.nodeRoot [] acc) M1 M2
    refine ⟨⟨t1 ++ t2, by rw [ht2, ht1]; simp⟩, R1, ?_⟩
    intro fn hfn
    rcases R3 fn hfn with hmid | hroot | hchain
    · rcases M3 fn hmid with hacc | hself | hchain2
      · exact .inl hacc
      · exact .inr (.inl ⟨hself.1, b, List.mem_cons_self b rest, hself.2⟩)
      · obtain ⟨fp, hfp, h1, h2⟩ := hchain2
        refine .inr (.inr ⟨fp, ?_, h1, h2⟩)
        rw [ht2]
        exact List.mem_append_left t2 hfp
    · obtain ⟨hpids, bb, hbb, horig⟩ := hroot
      exact .inr (.inl ⟨hpids, bb, List.mem_cons_of_mem b hbb, horig⟩)
    · exact .inr (.inr hchain)

/-- C7: every flattened record's `parentIDs` is the ordered ancestor chain
from the root down to (but not including) the record itself: it is empty
exactly when the record is the copy of some build's root, and otherwise it
extends its parent's chain by the parent's id; every id in `parentIDs` is
strictly smaller than the record's own id. -/
theorem C7_parent_chain (builds : List Build) (fn : FlatNode)
    (hfn : fn ∈ getNodeList builds) :
    (∀ q ∈ fn.parentIDs, q < fn.id) ∧
    ((fn.parentIDs = [] ∧ ∃ b ∈ builds, origNode fn = b.nodeRoot) ∨
     (∃ fp, fp ∈ getNodeList builds ∧ fn.parentIDs = fp.parentIDs ++ [fp.id] ∧
        origNode fn ∈ fp.children)) := by
  obtain ⟨hpre, G1, G3⟩ :=
    getNodeListAux_inv builds [] (by simp) (by simp)
  refine ⟨G1 fn hfn, ?_⟩
  rcases G3 fn hfn with h | h | h
  · simp at h
  · exact .inl h
  · exact .inr h

/-- The flattening of `exBuilds` in full. -/
theorem getNodeList_exBuilds : getNodeList exBuilds = [rootFN, kidFN] := rfl

/-- Membership of the child record in the flattening of `exBuilds`. -/
theorem kidFN_mem : kidFN ∈ getNodeList exBuilds := by
  rw [getNodeList_exBuilds]
  exact List.mem_cons_of_mem _ (List.mem_cons_self _ _)

/-- Witness for C7 at the child record of `exBuilds`. -/
theorem C7_witness :
    (∀ q ∈ kidFN.parentIDs, q < kidFN.id) ∧
    ((kidFN.parentIDs = [] ∧ ∃ b ∈ exBuilds, origNode kidFN = b.nodeRoot) ∨
     (∃ fp, fp ∈ getNodeList exBuilds ∧
        kidFN.parentIDs = fp.parentIDs ++ [fp.id] ∧ origNode kidFN ∈ fp.children)) :=
  C7_parent_chain exBuilds kidFN kidFN_mem

end JPV

namespace JPV

/-- If any node in the list has an empty interval list, the row loop fails
with `emptyIntervalList`. -/
theorem renderRows_error (s T : ℤ) (l : List FlatNode)
    (h : ∃ fn ∈ l, fn.intervals = []) :
    renderRows s T l = .error RenderError.emptyIntervalList := by
  induction l with
  | nil => simp at h
  | cons n rest ih =>
    obtain ⟨fn, hfn, hiv⟩ := h
    rcases List.mem_cons.mp hfn with heq | hmem
    · subst heq
      rw [renderRows]
      have hr : renderNode s T fn = .error .emptyIntervalList := by
        unfold renderNode normalizeIntervals
        rw [hiv]
      rw [hr]
    · rw [renderRows, ih ⟨fn, hmem, hiv⟩]
      cases hr : renderNode s T n
      · rename_i e
        cases e
        rfl
      · rfl

/-- C8: whenever some flattened node has an empty interval list, the whole
render fails with the empty-interval-list error and no chart value is
produced. -/
theorem C8_empty_intervals (data : Data)
    (h : ∃ fn ∈ getNodeList data.builds, fn.intervals = []) :
    renderChart data = .error RenderError.emptyIntervalList := by
  simp only [renderChart]
  rw [renderRows_error _ _ _ h]

/-- Witness for C8 on `data8`, whose single node has no intervals. -/
theorem C8_witness : renderChart data8 = .error RenderError.emptyIntervalList :=
  C8_empty_intervals data8
    ⟨emptyFN,
     by rw [show getNodeList data8.builds = [emptyFN] from rfl]
        exact List.mem_cons_self _ _,
     rfl⟩

end JPV

namespace JPV

/-- `replaceChar` distributes over list concatenation. -/
theorem replaceChar_append (c : Char) (rep : List Char) (a b : List Char) :
    replaceChar c rep (a ++ b) = replaceChar c rep a ++ replaceChar c rep b := by
  induction a with
  | nil => simp [replaceChar]
  | cons x xs ih =>
    by_cases hx : x = c
    · simp [replaceChar, hx, ih]
    · simp [replaceChar, hx, ih]

/-- `safeList` distributes over list concatenation. -/
theorem safeList_append (a b : List Char) :
    safeList (a ++ b) = safeList a ++ safeList b := by
  simp [safeList, replaceChar_append]

/-- Unfolding `safeList` one character at a time. -/
theorem safeList_cons (c : Char) (cs : List Char) :
    safeList (c :: cs) = safeList [c] ++ safeList cs := by
  rw [show (c :: cs) = [c] ++ cs from rfl, safeList_append]

/-- On a single character, `safeList` is exactly `escChar`. -/
theorem safeList_single (c : Char) : safeList [c] = escChar c := by
  by_cases h1 : c = '&'
  · subst h1; rfl
  by_cases h2 : c = '<'
  · subst h2; rfl
  by_cases h3 : c = '>'
  · subst h3; rfl
  by_cases h4 : c = '"'
  · subst h4; rfl
  by_cases h5 : c = '\''
  · subst h5; rfl
  simp [safeList, replaceChar, escChar, h1, h2, h3, h4, h5]

theorem escapedB_amp (r : List Char) :
    escapedB ('&' :: 'a' :: 'm' :: 'p' :: ';' :: r) = escapedB r := by
  rw [escapedB]; simp +decide

theorem escapedB_lt (r : List Char) :
    escapedB ('&' :: 'l' :: 't' :: ';' :: r) = escapedB r := by
  rw [escapedB]; simp +decide

theorem escapedB_gt (r : List Char) :
    escapedB ('&' :: 'g' :: 't' :: ';' :: r) = escapedB r := by
  rw [escapedB]; simp +decide

theorem escapedB_quot (r : List Char) :
    escapedB ('&' :: 'q' :: 'u' :: 'o' :: 't' :: ';' :: r) = escapedB r := by
  rw [escapedB]; simp +decide

theorem escapedB_apos (r : List Char) :
    escapedB ('&' :: '#' :: '0' :: '3' :: '9' :: ';' :: r) = escapedB r := by
  rw [escapedB]; simp +decide

theorem escapedB_other (c : Char) (r : List Char) (h1 : c ≠ '&') (h2 : c ≠ '<')
    (h3 : c ≠ '>') (h4 : c ≠ '"') (h5 : c ≠ '\'') :
    escapedB (c :: r) = escapedB r := by
  rw [escapedB]; simp [h1, h2, h3, h4, h5]

/-- Prepending one escaped character leaves `escapedB` unchanged. -/
theorem escapedB_escChar (c : Char) (r : List Char) :
    escapedB (escChar c ++ r) = escapedB r := by
  by_cases h1 : c = '&'
  · subst h1; exact escapedB_amp r
  by_cases h2 : c = '<'
  · subst h2; exact escapedB_lt r
  by_cases h3 : c = '>'
  · subst h3; exact escapedB_gt r
  by_cases h4 : c = '"'
  · subst h4; exact escapedB_quot r
  by_cases h5 : c = '\''
  · subst h5; exact escapedB_apos r
  have he : escChar c = [c] := by simp [escChar, h1, h2, h3, h4, h5]
  rw [he, List.singleton_append]
  exact escapedB_other c r h1 h2 h3 h4 h5

theorem unescape_amp (r : List Char) :
    unescape ('&' :: 'a' :: 'm' :: 'p' :: ';' :: r) = '&' :: unescape r := by
  rw [unescape]; simp +decide

theorem unescape_lt (r : List Char) :
    unescape ('&' :: 'l' :: 't' :: ';' :: r) = '<' :: unescape r := by
  rw [unescape]; simp +decide

theorem unescape_gt (r : List Char) :
    unescape ('&' :: 'g' :: 't' :: ';' :: r) = '>' :: unescape r := by
  rw [unescape]; simp +decide

theorem unescape_quot (r : List Char) :
    unescape ('&' :: 'q' :: 'u' :: 'o' :: 't' :: ';' :: r) = '"' :: unescape r := by
  rw [unescape]; simp +decide

theorem unescape_apos (r : List Char) :
    unescape ('&' :: '#' :: '0' :: '3' :: '9' :: ';' :: r) = '\'' :: unescape r := by
  rw [unescape]; simp +decide

theorem unescape_other (c : Char) (r : List Char) (h1 : c ≠ '&') :
    unescape (c :: r) = c :: unescape r := by
  rw [unescape]; simp [h1]

/-- Decoding after escaping one character recovers the character. -/
theorem unescape_escChar (c : Char) (r : List Char) :
    unescape (escChar c ++ r) = c :: unescape r := by
  by_cases h1 : c = '&'
  · subst h1; exact unescape_amp r
  by_cases h2 : c = '<'
  · subst h2; exact unescape_lt r
  by_cases h3 : c = '>'
  · subst h3; exact unescape_gt r
  by_cases h4 : c = '"'
  · subst h4; exact unescape_quot r
  by_cases h5 : c = '\''
  · subst h5; exact unescape_apos r
  have he : escChar c = [c] := by simp [escChar, h1, h2, h3, h4, h5]
  rw [he, List.singleton_append]
  exact unescape_other c r h1

/-- The output of `safeList` has no unescaped reserved character. -/
theorem escapedB_safeList (l : List Char) : escapedB (safeList l) = true := by
  induction l with
  | nil => simp [safeList, replaceChar, escapedB]
  | cons c cs ih =>
    rw [safeList_cons, safeList_single, escapedB_escChar]
    exact ih

/-- Decoding the output of `safeList` recovers the input exactly: every
reserved character was replaced by its own entity and nothing was lost. -/
theorem unescape_safeList (l : List Char) : unescape (safeList l) = l := by
  induction l with
  | nil => simp [safeList, replaceChar, unescape]
  | cons c cs ih =>
    rw [safeList_cons, safeList_single, unescape_escChar, ih]

end JPV

namespace JPV

/-- Every row of a successful row loop comes from rendering some node of
the input list. -/
theorem renderRows_mem (s T : ℤ) (l : List FlatNode) (rows : List Row)
    (h : renderRows s T l = .ok rows) :
    ∀ row ∈ rows, ∃ fn ∈ l, renderNode s T fn = .ok row := by
  induction l generalizing rows with
  | nil =>
    rw [renderRows] at h
    cases h
    intro row hrow
    simp at hrow
  | cons n rest ih =>
    rw [renderRows] at h
    cases hn : renderNode s T n with
    | error e => rw [hn] at h; cases h
    | ok row0 =>
      rw [hn] at h
      cases hr : renderRows s T rest with
      | error e => rw [hr] at h; cases h
      | ok rows0 =>
        rw [hr] at h
        cases h
        intro row hrow
        rcases List.mem_cons.mp hrow with heq | hmem
        · exact ⟨n, List.mem_cons_self _ _, by rw [hn, heq]⟩
        · obtain ⟨fn, hfn, hfr⟩ := ih rows0 hr row hmem
          exact ⟨fn, List.mem_cons_of_mem _ hfn, hfr⟩

/-- A successfully rendered row carries the escaped node name as its label
and an escaped mode string in every segment. -/
theorem renderNode_ok (s T : ℤ) (fn : FlatNode) (row : Row)
    (h : renderNode s T fn = .ok row) :
    row.labelHtml = safe fn.name ∧
    ∀ ib ∈ row.intervals, ∃ m : String, ib.modeHtml = safe m := by
  unfold renderNode at h
  cases hn : normalizeIntervals s fn.intervals with
  | error e => rw [hn] at h; cases h
  | ok norm =>
    rw [hn] at h
    cases h
    refine ⟨rfl, ?_⟩
    intro ib hib
    unfold intervalBoxes at hib
    obtain ⟨iv, hiv, hEq⟩ := List.mem_map.mp hib
    exact ⟨iv.mode, by rw [← hEq]⟩

/-- Shape of a successful whole-chart render. -/
theorem renderChart_ok (data : Data) (chart : Chart)
    (h : renderChart data = .ok chart) :
    chart.titleHtml = safe data.title ∧ chart.subtitleHtml = safe data.subtitle ∧
    ∀ row ∈ chart.rows, ∃ fn ∈ getNodeList data.builds,
      renderNode data.taskStartTimeMs (data.taskEndTimeMs - data.taskStartTimeMs) fn =
        .ok row := by
  simp only [renderChart] at h
  cases hr : renderRows data.taskStartTimeMs
      (data.taskEndTimeMs - data.taskStartTimeMs) (getNodeList data.builds) with
  | error e => rw [hr] at h; cases h
  | ok rows =>
    rw [hr] at h
    cases h
    exact ⟨rfl, rfl, renderRows_mem _ _ _ _ hr⟩

/-- C9: the escaping applied to every user-supplied text embedded in the
output (title, subtitle, node names, interval modes) replaces each of the
five reserved characters by its entity (losslessly, witnessed by the
decoder) and leaves no unescaped occurrence in the output. -/
theorem C9_escaping (s : String) (data : Data) (chart : Chart)
    (h : renderChart data = .ok chart) :
    escapedB (safe s).toList = true ∧
    unescape (safe s).toList = s.toList ∧
    chart.titleHtml = safe data.title ∧
    chart.subtitleHtml = safe data.subtitle ∧
    escapedB chart.titleHtml.toList = true ∧
    escapedB chart.subtitleHtml.toList = true ∧
    (∀ row ∈ chart.rows,
      (∃ fn ∈ getNodeList data.builds, row.labelHtml = safe fn.name) ∧
      escapedB row.labelHtml.toList = true ∧
      (∀ ib ∈ row.intervals,
        (∃ m : String, ib.modeHtml = safe m) ∧
        escapedB ib.modeHtml.toList = true)) := by
  obtain ⟨ht, hst, hrows⟩ := renderChart_ok data chart h
  have hsafe : ∀ u : String, escapedB (safe u).toList = true := by
    intro u
    exact escapedB_safeList u.toList
  have hun : ∀ u : String, unescape (safe u).toList = u.toList := by
    intro u
    exact unescape_safeList u.toList
  refine ⟨hsafe s, hun s, ht, hst, by rw [ht]; exact hsafe _,
    by rw [hst]; exact hsafe _, ?_⟩
  intro row hrow
  obtain ⟨fn, hfn, hr⟩ := hrows row hrow
  obtain ⟨hlabel, hmodes⟩ := renderNode_ok _ _ _ _ hr
  refine ⟨⟨fn, hfn, hlabel⟩, by rw [hlabel]; exact hsafe _, ?_⟩
  intro ib hib
  obtain ⟨m, hm⟩ := hmodes ib hib
  exact ⟨⟨m, hm⟩, by rw [hm]; exact hsafe _⟩

end JPV

namespace JPV

/-- Witness for C9 on `data9`, whose title and node name contain all five
reserved characters. -/
theorem C9_witness :
    escapedB (safe nasty).toList = true ∧
    unescape (safe nasty).toList = nasty.toList ∧
    chart9.titleHtml = safe data9.title ∧
    chart9.subtitleHtml = safe data9.subtitle ∧
    escapedB chart9.titleHtml.toList = true ∧
    escapedB chart9.subtitleHtml.toList = true ∧
    (∀ row ∈ chart9.rows,
      (∃ fn ∈ getNodeList data9.builds, row.labelHtml = safe fn.name) ∧
      escapedB row.labelHtml.toList = true ∧
      (∀ ib ∈ row.intervals,
        (∃ m : String, ib.modeHtml = safe m) ∧
        escapedB ib.modeHtml.toList = true)) :=
  C9_escaping nasty data9 chart9 rfl

end JPV

namespace JPV

mutual
/-- The heap-model flattener only appends freshly allocated objects to the
store: the original store is a prefix of the resulting store. -/
theorem flattenNodesH_store (fuel : ℕ) (store : List HNode) (ref : ℕ)
    (p acc : List ℕ) :
    ∃ t, (flattenNodesH fuel store ref p acc).1 = store ++ t := by
  match fuel with
  | 0 => exact ⟨[], by rw [flattenNodesH]; simp⟩
  | fuel + 1 =>
    rw [flattenNodesH]
    cases hn : store.get? ref with
    | none => exact ⟨[], by simp⟩
    | some node =>
      obtain ⟨t, ht⟩ := flattenChildrenH_store fuel node.children (p ++ [acc.length])
        (store ++ [{ node with
                     id := some acc.length,
                     parentIDs := some p,
                     hasChildren := some (!node.children.isEmpty) }])
        (acc ++ [store.length])
      refine ⟨[{ node with
                 id := some acc.length,
                 parentIDs := some p,
                 hasChildren := some (!node.children.isEmpty) }] ++ t, ?_⟩
      rw [ht, List.append_assoc]

/-- Same store-prefix property for the children loop of the heap model. -/
theorem flattenChildrenH_store (fuel : ℕ) (cs : List ℕ) (p : List ℕ)
    (store : List HNode) (acc : List ℕ) :
    ∃ t, (flattenChildrenH fuel cs p store acc).1 = store ++ t := by
  match cs with
  | [] => exact ⟨[], by rw [flattenChildrenH]; simp⟩
  | c :: rest =>
    rw [flattenChildrenH]
    obtain ⟨t1, ht1⟩ := flattenNodesH_store fuel store c p acc
    obtain ⟨t2, ht2⟩ := flattenChildrenH_store fuel rest p
      (flattenNodesH fuel store c p acc).1 (flattenNodesH fuel store c p acc).2
    exact ⟨t1 ++ t2, by rw [ht2, ht1]; simp⟩
end

/-- The whole heap-model render-pass flattening keeps the original store a
prefix of the result. -/
theorem getNodeListH_store (fuel : ℕ) (roots : List ℕ) (store : List HNode)
    (acc : List ℕ) :
    ∃ t, (roots.foldl (fun st root => flattenNodesH fuel st.1 root [] st.2)
      (store, acc)).1 = store ++ t := by
  induction roots generalizing store acc with
  | nil => exact ⟨[], by simp⟩
  | cons r rest ih =>
    rw [List.foldl_cons]
    obtain ⟨t1, ht1⟩ := flattenNodesH_store fuel store r [] acc
    obtain ⟨t2, ht2⟩ := ih (flattenNodesH fuel store r [] acc).1
      (flattenNodesH fuel store r [] acc).2
    exact ⟨t1 ++ t2, ht2.trans (by rw [ht1, List.append_assoc])⟩

/-- C10: the render pass never mutates the input document.  In the heap
model the flattener only reads existing objects and allocates fresh copies
at the end of the store, so every pre-existing object (the builds trees)
is unchanged by the pass. -/
theorem C10_no_input_mutation (fuel : ℕ) (store : List HNode) (roots : List ℕ)
    (i : ℕ) (hi : i < store.length) :
    (getNodeListH fuel store roots).1.get? i = store.get? i := by
  obtain ⟨t, ht⟩ := getNodeListH_store fuel roots store []
  rw [getNodeListH, ht]
  exact List.get?_append hi

/-- Witness for C10 on the two-object example store. -/
theorem C10_witness :
    (getNodeListH 9 store10 [0]).1.get? 0 = store10.get? 0 :=
  C10_no_input_mutation 9 store10 [0] 0 (by simp [store10])

end JPV
